import Mathlib

/-!
Verification of the stock-state reconciliation engine of the
telegram/woocommerce integration.

The engine (`check_and_notify_products` in `src/main.py`) keeps an in-memory
mapping from product id to last-observed state (`PRODUCT_STOCK_STATES`, a
Python dict, insertion ordered) plus a module flag `INITIAL_RUN_COMPLETE`.
Each cycle it consumes a snapshot (the list returned by the catalog fetcher),
diffs it against the store, emits notifications, runs a cold-start sweep the
first time, and deletes identities that disappeared from the catalog.

The catalog fetcher's per-record stock classifier
(`wc.check_product_stock_status`) and the notifier
(`tg.send_out_of_stock_notification`) are external collaborators not present
under `src/`; the engine is therefore parametrised by
`classify : ProductRecord → Bool` and `deliver : Nat → Bool` (the delivery
success reported by the notifier for a given product id).  The engine calls
the notifier and discards its result, exactly as the Python caller does.

Python dicts are modelled as insertion-ordered association lists.  A missing
or falsy product id (`None` or `0`, both falsy in Python) is modelled as
`pid = 0`; the store never acquires such a key.
-/

namespace TgWc

/-- One raw product record of a snapshot, with the Python `.get` defaults
(`'Unknown Product'` for the name, `''` for the permalink) already applied.
`inStock` is the stock flag reported by the catalog source. -/
structure ProductRecord where
  pid : Nat
  name : String
  permalink : String
  inStock : Bool
deriving DecidableEq, Repr

/-- The per-product value stored in `PRODUCT_STOCK_STATES` (main.py lines
53-58): name, `is_out_of_stock`, permalink and the `notified` flag. -/
structure TrackedProductState where
  name : String
  is_out_of_stock : Bool
  permalink : String
  notified : Bool
deriving DecidableEq, Repr

/-- `PRODUCT_STOCK_STATES` as an insertion-ordered association list. -/
abbrev Store := List (Nat × TrackedProductState)

/-- The whole mutable state of the engine: the store plus the
`INITIAL_RUN_COMPLETE` flag. -/
structure EngineState where
  store : Store
  initial_run_complete : Bool
deriving DecidableEq, Repr

/-- Where in the cycle a notification was emitted: during the per-item loop
(main.py lines 38-93) or during the post-scan cold-start sweep (lines
104-108). -/
inductive Phase
  | perItem
  | sweep
deriving DecidableEq, Repr

/-- One emitted notification: the arguments passed to
`tg.send_out_of_stock_notification`, the phase it was sent in, and the
success value the notifier reported back. -/
structure Notif where
  pid : Nat
  name : String
  permalink : String
  phase : Phase
  ok : Bool
deriving DecidableEq, Repr

/-- Python `str.lower` restricted to the characters of the string. -/
def lowerChars (s : String) : List Char :=
  s.data.map Char.toLower

/-- Does the second list start with the first one? -/
def leadMatch : List Char → List Char → Bool
  | [], _ => true
  | _ :: _, [] => false
  | a :: as, b :: bs => a == b && leadMatch as bs

/-- Python's `in` on strings: contiguous-subsequence containment. -/
def containsSeq (needle : List Char) : List Char → Bool
  | [] => needle.isEmpty
  | b :: bs => leadMatch needle (b :: bs) || containsSeq needle bs

/-- Modelled from the spec: `wc.check_product_stock_status` is called by
`check_and_notify_products` but is not under `src/`.  Spec section 4.1 step 2
defines it as `NOT reported_in_stock OR keyword ⊆ lowercase(raw_name)`,
case-insensitive substring containment of the configured keyword. -/
def check_product_stock_status (keyword : String) (p : ProductRecord) : Bool :=
  !p.inStock || containsSeq (lowerChars keyword) (lowerChars p.name)

/-- The keys of the store, in insertion order. -/
def keys (st : Store) : List Nat :=
  st.map Prod.fst

/-- Python `PRODUCT_STOCK_STATES.get(product_id)`: the value stored under a
key, if any. -/
def getVal : Store → Nat → Option TrackedProductState
  | [], _ => none
  | x :: t, k => if x.1 = k then some x.2 else getVal t k

/-- Overwrite the value stored under key `k` (Python dict item assignment). -/
def updEntry (st : Store) (k : Nat) (e : TrackedProductState) : Store :=
  st.map fun x => if x.1 = k then (k, e) else x

/-- The state-change branches for a product already present in the store
(main.py lines 66-88): returns the new entry and whether a notification is
sent.  First the flip branches (lines 68-81), then the re-confirmation
branch (lines 83-88). -/
def branchEntry (prev : TrackedProductState) (c : Bool) :
    TrackedProductState × Bool :=
  if c ≠ prev.is_out_of_stock then
    if c then ({ prev with is_out_of_stock := true, notified := true }, true)
    else ({ prev with is_out_of_stock := false, notified := false }, false)
  else if c && !prev.notified then
    ({ prev with notified := true }, true)
  else (prev, false)

/-- The metadata refresh of main.py lines 90-93: if the stored name or the
stored permalink differs from the fresh record, overwrite both. -/
def metaRefresh (prev e : TrackedProductState) (r : ProductRecord) :
    TrackedProductState :=
  if prev.name ≠ r.name ∨ prev.permalink ≠ r.permalink then
    { e with name := r.name, permalink := r.permalink }
  else e

/-- Store effect of processing one snapshot record (one iteration of the
per-item loop, main.py lines 38-93).  A falsy id is skipped (line 44).
An absent identity is inserted fresh with `notified = false`, set to `true`
only when it is out of stock and the initial scan is complete (lines 51-63);
dict insertion appends at the end.  A present identity goes through the
state-change branches followed by the metadata refresh. -/
def stepStore (classify : ProductRecord → Bool) (irc : Bool)
    (st : Store) (r : ProductRecord) : Store :=
  if r.pid = 0 then st
  else
    let c := classify r
    match getVal st r.pid with
    | none =>
        st ++ [(r.pid,
          { name := r.name, is_out_of_stock := c, permalink := r.permalink,
            notified := c && irc })]
    | some prev => updEntry st r.pid (metaRefresh prev (branchEntry prev c).1 r)

/-- Notifications emitted while processing one snapshot record.  The Python
caller awaits `tg.send_out_of_stock_notification` and discards its result;
the reported success is only recorded in the log's `ok` field. -/
def stepLog (classify : ProductRecord → Bool) (deliver : Nat → Bool)
    (irc : Bool) (st : Store) (r : ProductRecord) : List Notif :=
  if r.pid = 0 then []
  else
    let c := classify r
    match getVal st r.pid with
    | none =>
        if c && irc then
          [⟨r.pid, r.name, r.permalink, Phase.perItem, deliver r.pid⟩]
        else []
    | some prev =>
        if (branchEntry prev c).2 then
          [⟨r.pid, r.name, r.permalink, Phase.perItem, deliver r.pid⟩]
        else []

/-- The per-item loop over the whole snapshot, threading the store and
accumulating the notification log in snapshot order. -/
def processAll (classify : ProductRecord → Bool) (deliver : Nat → Bool)
    (irc : Bool) (snapshot : List ProductRecord) (st : Store) :
    Store × List Notif :=
  snapshot.foldl
    (fun acc r =>
      (stepStore classify irc acc.1 r,
       acc.2 ++ stepLog classify deliver irc acc.1 r))
    (st, [])

/-- The cold-start sweep applied to one stored value (main.py lines
104-108): an out-of-stock entry not yet notified gets `notified := true`. -/
def sweepVal (v : TrackedProductState) : TrackedProductState :=
  if v.is_out_of_stock && !v.notified then { v with notified := true } else v

/-- Store after the cold-start sweep.  The Python loop mutates each visited
entry's own `notified` flag in place, which on a dict with unique keys is a
pointwise value map. -/
def sweepStore (st : Store) : Store :=
  st.map fun x => (x.1, sweepVal x.2)

/-- Notifications emitted by the cold-start sweep, in store iteration
(insertion) order. -/
def sweepLog (deliver : Nat → Bool) (st : Store) : List Notif :=
  (st.filter fun x => x.2.is_out_of_stock && !x.2.notified).map
    fun x => ⟨x.1, x.2.name, x.2.permalink, Phase.sweep, deliver x.1⟩

/-- `check_and_notify_products` (main.py lines 22-119), one cycle.
An empty snapshot returns immediately with no mutation (lines 32-34).
Otherwise: per-item loop, then — when `INITIAL_RUN_COMPLETE` was false —
the flag is set and the whole store is swept (lines 96-108), and finally
every key absent from this cycle's ids is deleted (lines 111-117).  The ids
set is collected before the falsy-id skip, so falsy ids are included. -/
def check_and_notify_products (classify : ProductRecord → Bool)
    (deliver : Nat → Bool) (snapshot : List ProductRecord)
    (s : EngineState) : EngineState × List Notif :=
  if snapshot = [] then (s, [])
  else
    let current_ids := snapshot.map fun r => r.pid
    let p := processAll classify deliver s.initial_run_complete snapshot s.store
    let st2 := if s.initial_run_complete then p.1 else sweepStore p.1
    let log2 := if s.initial_run_complete then p.2 else p.2 ++ sweepLog deliver p.1
    let st3 := st2.filter fun x => decide (x.1 ∈ current_ids)
    (⟨st3, true⟩, log2)

/-- The state the process starts in: empty store, initial scan not done. -/
def initState : EngineState :=
  ⟨[], false⟩

/-- Run a sequence of cycles, collecting each cycle's notification log. -/
def runCycles (classify : ProductRecord → Bool) (deliver : Nat → Bool)
    (snaps : List (List ProductRecord)) (s : EngineState) :
    EngineState × List (List Notif) :=
  snaps.foldl
    (fun acc snap =>
      let r := check_and_notify_products classify deliver snap acc.1
      (r.1, acc.2 ++ [r.2]))
    (s, [])

/-- An inbound reply event as seen by `handle_reply`
(telegram_handler.py lines 55-68): the id of the message it replies to, if
any, and its text, if any. -/
structure ReplyMsg where
  reply_to : Option Nat
  text : Option String
deriving DecidableEq, Repr

/-- The keyword test of telegram_handler.py line 64:
`OUT_OF_STOCK_KEYWORD.lower() in message.text.lower()`. -/
def keyword_in (keyword t : String) : Bool :=
  containsSeq (lowerChars keyword) (lowerChars t)

/-- `handle_reply` (telegram_handler.py lines 55-68), reduced to its routing
decision: `true` means the reply is forwarded to
`process_telegram_reply_for_stock_update`.  A missing message or a message
that is not a reply is ignored (lines 57-59); then the reply is routed iff
its text is truthy (present and non-empty) and contains the keyword
case-insensitively (line 64). -/
def handle_reply (keyword : String) (msg : Option ReplyMsg) : Bool :=
  match msg with
  | none => false
  | some m =>
    match m.reply_to with
    | none => false
    | some _ =>
      match m.text with
      | none => false
      | some t => if t = "" then false else keyword_in keyword t

/-! Derived definitions used to state and prove the properties. -/

/-- The truthy (non-falsy) product ids of a snapshot, in order.  Only these
can become store keys. -/
def truthyIds : List ProductRecord → List Nat
  | [] => []
  | r :: t => if r.pid = 0 then truthyIds t else r.pid :: truthyIds t

/-- The entry stored for a truthy-id record after its per-item step, as a
function of the previous entry (if any). -/
def postEntry (classify : ProductRecord → Bool) (irc : Bool)
    (prev : Option TrackedProductState) (r : ProductRecord) :
    TrackedProductState :=
  match prev with
  | none => ⟨r.name, classify r, r.permalink, classify r && irc⟩
  | some p => metaRefresh p (branchEntry p (classify r)).1 r

/-- The per-item loop iterated over a snapshot, store component only. -/
def foldStore (classify : ProductRecord → Bool) (irc : Bool) :
    Store → List ProductRecord → Store
  | st, [] => st
  | st, r :: t => foldStore classify irc (stepStore classify irc st r) t

/-- The per-item loop iterated over a snapshot, log component only. -/
def foldLogs (classify : ProductRecord → Bool) (deliver : Nat → Bool)
    (irc : Bool) : Store → List ProductRecord → List Notif
  | _, [] => []
  | st, r :: t =>
    stepLog classify deliver irc st r ++
      foldLogs classify deliver irc (stepStore classify irc st r) t

/-- Closed form of the store built by a cold-start per-item loop from the
empty store: one fresh entry per truthy-id record, in snapshot order, all
with `notified = false`. -/
def coldStore (classify : ProductRecord → Bool) : List ProductRecord → Store
  | [] => []
  | r :: t =>
    if r.pid = 0 then coldStore classify t
    else (r.pid, ⟨r.name, classify r, r.permalink, false⟩) :: coldStore classify t

/-- Closed form of a cold-start cycle's notification log: one sweep-phase
notification per out-of-stock truthy-id record, in snapshot order. -/
def coldLog (classify : ProductRecord → Bool) (deliver : Nat → Bool) :
    List ProductRecord → List Notif
  | [] => []
  | r :: t =>
    if r.pid = 0 then coldLog classify deliver t
    else if classify r then
      ⟨r.pid, r.name, r.permalink, Phase.sweep, deliver r.pid⟩ ::
        coldLog classify deliver t
    else coldLog classify deliver t

/-- An entry is settled for a record when it carries the record's metadata
and classification and, if out of stock, has been notified.  Processing a
settled entry is a no-op that emits nothing. -/
def Settled (classify : ProductRecord → Bool) (r : ProductRecord)
    (e : TrackedProductState) : Prop :=
  e.is_out_of_stock = classify r ∧ e.name = r.name ∧
    e.permalink = r.permalink ∧ (classify r = true → e.notified = true)

/-- A notification without the success flag the notifier reported. -/
def notifCore (n : Notif) : Nat × String × String × Phase :=
  (n.pid, n.name, n.permalink, n.phase)

/-! Association-list facts about the store. -/

theorem keys_nil : keys ([] : Store) = [] :=
  rfl

theorem keys_cons (a : Nat × TrackedProductState) (t : Store) :
    keys (a :: t) = a.1 :: keys t :=
  rfl

theorem keys_append (s t : Store) : keys (s ++ t) = keys s ++ keys t := by
  simp [keys]

theorem getVal_eq_none_iff (st : Store) (k : Nat) :
    getVal st k = none ↔ k ∉ keys st := by
  induction st with
  | nil => simp [getVal, keys_nil]
  | cons a t ih =>
    by_cases h : a.1 = k
    · simp [getVal, keys_cons, h]
    · simp [getVal, keys_cons, ih, h, Ne.symm h]

theorem mem_keys_of_getVal {st : Store} {k : Nat} {v : TrackedProductState}
    (h : getVal st k = some v) : k ∈ keys st := by
  by_contra hk
  rw [← getVal_eq_none_iff] at hk
  rw [h] at hk
  exact Option.noConfusion hk

theorem getVal_mem {st : Store} {k : Nat} {v : TrackedProductState}
    (h : getVal st k = some v) : (k, v) ∈ st := by
  induction st with
  | nil => simp [getVal] at h
  | cons a t ih =>
    by_cases hk : a.1 = k
    · simp [getVal, hk] at h
      subst h
      subst hk
      exact List.mem_cons_self _ _
    · simp [getVal, hk] at h
      exact List.mem_cons_of_mem _ (ih h)

theorem getVal_updEntry_self {st : Store} {k : Nat}
    (e : TrackedProductState) (h : k ∈ keys st) :
    getVal (updEntry st k e) k = some e := by
  induction st with
  | nil => simp [keys_nil] at h
  | cons a t ih =>
    by_cases hk : a.1 = k
    · simp [updEntry, getVal, hk]
    · rw [keys_cons, List.mem_cons] at h
      have h2 : k ∈ keys t := h.resolve_left (by intro hc; exact hk hc.symm)
      simpa [updEntry, getVal, hk] using ih h2

theorem getVal_updEntry_ne {st : Store} {k k' : Nat}
    (e : TrackedProductState) (h : k' ≠ k) :
    getVal (updEntry st k e) k' = getVal st k' := by
  induction st with
  | nil => simp [updEntry]
  | cons a t ih =>
    by_cases hk : a.1 = k
    · simpa [updEntry, getVal, hk, Ne.symm h, h] using ih
    · by_cases hk' : a.1 = k'
      · simp [updEntry, getVal, hk, hk', h]
      · simpa [updEntry, getVal, hk, hk'] using ih

theorem keys_updEntry (st : Store) (k : Nat) (e : TrackedProductState) :
    keys (updEntry st k e) = keys st := by
  induction st with
  | nil => rfl
  | cons a t ih =>
    by_cases hk : a.1 = k
    · simp only [updEntry, List.map_cons, keys_cons, hk, if_pos]
      simpa [updEntry, hk] using ih
    · simp only [updEntry, List.map_cons, keys_cons, if_neg hk]
      simpa [updEntry] using ih

theorem updEntry_id_of_not_mem {st : Store} {k : Nat}
    (e : TrackedProductState) (h : k ∉ keys st) : updEntry st k e = st := by
  induction st with
  | nil => rfl
  | cons a t ih =>
    rw [keys_cons, List.mem_cons] at h
    push_neg at h
    have ha : a.1 ≠ k := fun hc => h.1 hc.symm
    have ht := ih h.2
    simp only [updEntry, List.map_cons, if_neg ha]
    rw [show List.map (fun x => if x.1 = k then (k, e) else x) t = t from ht]

theorem updEntry_eq_self {st : Store} {k : Nat} {e : TrackedProductState}
    (hnd : (keys st).Nodup) (h : getVal st k = some e) :
    updEntry st k e = st := by
  induction st with
  | nil => rfl
  | cons a t ih =>
    rw [keys_cons, List.nodup_cons] at hnd
    by_cases hk : a.1 = k
    · simp [getVal, hk] at h
      have hkt : k ∉ keys t := hk ▸ hnd.1
      have ht := updEntry_id_of_not_mem e hkt
      simp only [updEntry, List.map_cons, if_pos hk]
      rw [show List.map (fun x => if x.1 = k then (k, e) else x) t = t from ht]
      cases a with
      | mk k1 v1 =>
        simp at hk h
        simp [hk, h]
    · simp [getVal, hk] at h
      have ht := ih hnd.2 h
      simp only [updEntry, List.map_cons, if_neg hk]
      rw [show List.map (fun x => if x.1 = k then (k, e) else x) t = t from ht]

theorem getVal_append_of_none {s : Store} {k : Nat} (t : Store)
    (h : getVal s k = none) : getVal (s ++ t) k = getVal t k := by
  induction s with
  | nil => rfl
  | cons a s ih =>
    by_cases hk : a.1 = k
    · simp [getVal, hk] at h
    · simp [getVal, hk] at h ⊢
      exact ih h

theorem getVal_append_left {s : Store} {k : Nat} {v : TrackedProductState}
    (t : Store) (h : getVal s k = some v) : getVal (s ++ t) k = some v := by
  induction s with
  | nil => simp [getVal] at h
  | cons a s ih =>
    by_cases hk : a.1 = k
    · simp [getVal, hk] at h ⊢
      exact h
    · simp [getVal, hk] at h ⊢
      exact ih h

theorem getVal_mapVal (st : Store) (k : Nat)
    (f : TrackedProductState → TrackedProductState) :
    getVal (st.map fun x => (x.1, f x.2)) k = (getVal st k).map f := by
  induction st with
  | nil => rfl
  | cons a t ih =>
    by_cases hk : a.1 = k
    · simp [getVal, hk]
    · simpa [getVal, hk] using ih

theorem getVal_sweepStore (st : Store) (k : Nat) :
    getVal (sweepStore st) k = (getVal st k).map sweepVal :=
  getVal_mapVal st k sweepVal

theorem keys_sweepStore (st : Store) : keys (sweepStore st) = keys st := by
  simp [sweepStore, keys]

theorem getVal_filterKey_keep {p : Nat → Bool} {k : Nat} (st : Store)
    (h : p k = true) :
    getVal (st.filter fun x => p x.1) k = getVal st k := by
  induction st with
  | nil => rfl
  | cons a t ih =>
    by_cases hk : a.1 = k
    · rw [List.filter_cons, hk, h]
      simp [getVal, hk, ih]
    · rw [List.filter_cons]
      by_cases hp : p a.1
      · simp [hp, getVal, hk, ih]
      · simp [hp, getVal, hk, ih]

theorem mem_keys_filterKey {p : Nat → Bool} {k : Nat} (st : Store) :
    k ∈ keys (st.filter fun x => p x.1) ↔ k ∈ keys st ∧ p k = true := by
  induction st with
  | nil => simp [keys_nil]
  | cons a t ih =>
    rw [List.filter_cons]
    by_cases hp : p a.1
    · rw [if_pos hp, keys_cons, keys_cons]
      by_cases hk : k = a.1
      · subst hk
        simp [hp, ih]
      · simp [hk, ih]
    · rw [if_neg hp, keys_cons]
      by_cases hk : k = a.1
      · subst hk
        simp [ih, hp]
      · simp [hk, ih]

theorem nodup_keys_filter {q : Nat × TrackedProductState → Bool} {st : Store}
    (h : (keys st).Nodup) : (keys (st.filter q)).Nodup := by
  have hs : (st.filter q).Sublist st := List.filter_sublist st
  exact ((hs.map Prod.fst).nodup h)

/-! Facts about the truthy ids of a snapshot. -/

theorem mem_truthyIds {snap : List ProductRecord} {k : Nat} :
    k ∈ truthyIds snap ↔ k ≠ 0 ∧ ∃ r ∈ snap, r.pid = k := by
  induction snap with
  | nil => simp [truthyIds]
  | cons a t ih =>
    by_cases ha : a.pid = 0
    · rw [truthyIds, if_pos ha, ih]
      constructor
      · rintro ⟨h0, r, hr, hk⟩
        exact ⟨h0, r, List.mem_cons_of_mem _ hr, hk⟩
      · rintro ⟨h0, r, hr, hk⟩
        rcases List.mem_cons.mp hr with h | h
        · exact absurd (by rw [← hk, h]; exact ha) h0
        · exact ⟨h0, r, h, hk⟩
    · rw [truthyIds, if_neg ha, List.mem_cons, ih]
      constructor
      · rintro (h | ⟨h0, r, hr, hk⟩)
        · exact ⟨h ▸ ha, a, List.mem_cons_self _ _, h.symm⟩
        · exact ⟨h0, r, List.mem_cons_of_mem _ hr, hk⟩
      · rintro ⟨h0, r, hr, hk⟩
        rcases List.mem_cons.mp hr with h | h
        · exact Or.inl (hk ▸ h ▸ rfl)
        · exact Or.inr ⟨h0, r, h, hk⟩

theorem truthyIds_cons_zero {a : ProductRecord} (t : List ProductRecord)
    (h : a.pid = 0) : truthyIds (a :: t) = truthyIds t := by
  rw [truthyIds, if_pos h]

theorem truthyIds_cons_pos {a : ProductRecord} (t : List ProductRecord)
    (h : a.pid ≠ 0) : truthyIds (a :: t) = a.pid :: truthyIds t := by
  rw [truthyIds, if_neg h]

/-! The effect of one per-item step on the store. -/

theorem stepStore_zero {c : ProductRecord → Bool} {irc : Bool} {st : Store}
    {r : ProductRecord} (h0 : r.pid = 0) : stepStore c irc st r = st := by
  rw [stepStore, if_pos h0]

theorem stepLog_zero {c : ProductRecord → Bool} {d : Nat → Bool} {irc : Bool}
    {st : Store} {r : ProductRecord} (h0 : r.pid = 0) :
    stepLog c d irc st r = [] := by
  rw [stepLog, if_pos h0]

theorem stepStore_lookup_self {c : ProductRecord → Bool} {irc : Bool}
    {st : Store} {r : ProductRecord} (h0 : r.pid ≠ 0) :
    getVal (stepStore c irc st r) r.pid =
      some (postEntry c irc (getVal st r.pid) r) := by
  rw [stepStore, if_neg h0]
  cases hl : getVal st r.pid with
  | none =>
    rw [getVal_append_of_none _ hl]
    simp [getVal, postEntry]
  | some prev =>
    exact getVal_updEntry_self _ (mem_keys_of_getVal hl)

theorem stepStore_lookup_ne {c : ProductRecord → Bool} {irc : Bool}
    {st : Store} {r : ProductRecord} {k : Nat} (h : r.pid = 0 ∨ k ≠ r.pid) :
    getVal (stepStore c irc st r) k = getVal st k := by
  by_cases h0 : r.pid = 0
  · rw [stepStore_zero h0]
  · have hne : k ≠ r.pid := h.resolve_left h0
    rw [stepStore, if_neg h0]
    cases hl : getVal st r.pid with
    | none =>
      cases hk : getVal st k with
      | none =>
        rw [getVal_append_of_none _ hk]
        simp [getVal, Ne.symm hne]
      | some v =>
        rw [getVal_append_left _ hk]
    | some prev =>
      exact getVal_updEntry_ne _ hne

theorem mem_keys_stepStore {c : ProductRecord → Bool} {irc : Bool}
    {st : Store} {r : ProductRecord} {k : Nat} :
    k ∈ keys (stepStore c irc st r) ↔
      k ∈ keys st ∨ (r.pid ≠ 0 ∧ k = r.pid) := by
  by_cases h0 : r.pid = 0
  · simp [stepStore_zero h0, h0]
  · rw [stepStore, if_neg h0]
    cases hl : getVal st r.pid with
    | none =>
      rw [keys_append, keys_cons, keys_nil]
      simp [h0]
    | some prev =>
      rw [keys_updEntry]
      constructor
      · exact fun h => Or.inl h
      · rintro (h | ⟨-, hk⟩)
        · exact h
        · exact hk ▸ mem_keys_of_getVal hl

theorem nodup_keys_stepStore {c : ProductRecord → Bool} {irc : Bool}
    {st : Store} {r : ProductRecord} (h : (keys st).Nodup) :
    (keys (stepStore c irc st r)).Nodup := by
  by_cases h0 : r.pid = 0
  · rw [stepStore_zero h0]
    exact h
  · rw [stepStore, if_neg h0]
    cases hl : getVal st r.pid with
    | none =>
      rw [keys_append, keys_cons, keys_nil]
      have hm : r.pid ∉ keys st := (getVal_eq_none_iff st r.pid).mp hl
      simp [List.nodup_append, h, hm]
    | some prev =>
      rw [keys_updEntry]
      exact h

/-! The per-item loop as a fold. -/

theorem processAll_eq (c : ProductRecord → Bool) (d : Nat → Bool) (irc : Bool)
    (snap : List ProductRecord) (st : Store) :
    processAll c d irc snap st =
      (foldStore c irc st snap, foldLogs c d irc st snap) := by
  suffices h : ∀ sn (st : Store) (lg : List Notif),
      sn.foldl
        (fun acc r =>
          (stepStore c irc acc.1 r, acc.2 ++ stepLog c d irc acc.1 r))
        (st, lg) = (foldStore c irc st sn, lg ++ foldLogs c d irc st sn) by
    simpa [processAll] using h snap st []
  intro sn
  induction sn with
  | nil =>
    intro st lg
    simp [foldStore, foldLogs]
  | cons a t ih =>
    intro st lg
    rw [List.foldl_cons, ih]
    simp [foldStore, foldLogs]

theorem foldStore_lookup_not_mem {c : ProductRecord → Bool} {irc : Bool}
    {snap : List ProductRecord} {st : Store} {k : Nat}
    (h : ∀ x ∈ snap, x.pid ≠ k) :
    getVal (foldStore c irc st snap) k = getVal st k := by
  induction snap generalizing st with
  | nil => rfl
  | cons a t ih =>
    rw [foldStore]
    rw [ih fun x hx => h x (List.mem_cons_of_mem _ hx)]
    exact stepStore_lookup_ne
      (Or.inr fun hc => h a (List.mem_cons_self _ _) hc.symm)

theorem nodup_keys_foldStore {c : ProductRecord → Bool} {irc : Bool}
    {snap : List ProductRecord} {st : Store} (h : (keys st).Nodup) :
    (keys (foldStore c irc st snap)).Nodup := by
  induction snap generalizing st with
  | nil => exact h
  | cons a t ih =>
    rw [foldStore]
    exact ih (nodup_keys_stepStore h)

theorem mem_keys_foldStore {c : ProductRecord → Bool} {irc : Bool}
    {snap : List ProductRecord} {st : Store} {k : Nat} :
    k ∈ keys (foldStore c irc st snap) ↔
      k ∈ keys st ∨ k ∈ truthyIds snap := by
  induction snap generalizing st with
  | nil => simp [foldStore, truthyIds]
  | cons a t ih =>
    rw [foldStore, ih, mem_keys_stepStore]
    by_cases ha : a.pid = 0
    · simp [truthyIds_cons_zero _ ha, ha]
    · rw [truthyIds_cons_pos _ ha, List.mem_cons]
      constructor
      · rintro ((h | ⟨-, hk⟩) | h)
        · exact Or.inl h
        · exact Or.inr (Or.inl hk)
        · exact Or.inr (Or.inr h)
      · rintro (h | h | h)
        · exact Or.inl (Or.inl h)
        · exact (Or.inl (Or.inr ⟨ha, h⟩))
        · exact Or.inr h

theorem foldStore_lookup_mem {c : ProductRecord → Bool} {irc : Bool}
    {snap : List ProductRecord} {st : Store} {r : ProductRecord}
    (hnd : (truthyIds snap).Nodup) (hr : r ∈ snap) (h0 : r.pid ≠ 0) :
    getVal (foldStore c irc st snap) r.pid =
      some (postEntry c irc (getVal st r.pid) r) := by
  induction snap generalizing st with
  | nil => cases hr
  | cons a t ih =>
    rw [foldStore]
    by_cases ha0 : a.pid = 0
    · have hrt : r ∈ t := by
        rcases List.mem_cons.mp hr with h | h
        · exact absurd (by rw [h]; exact ha0) h0
        · exact h
      rw [stepStore_zero ha0]
      exact ih (by rwa [truthyIds_cons_zero _ ha0] at hnd) hrt
    · rw [truthyIds_cons_pos _ ha0, List.nodup_cons] at hnd
      by_cases hak : a.pid = r.pid
      · have hra : r = a := by
          rcases List.mem_cons.mp hr with h | h
          · exact h
          · exact absurd (mem_truthyIds.mpr ⟨ha0, r, h, hak.symm⟩) hnd.1
        subst hra
        have hnone : ∀ x ∈ t, x.pid ≠ r.pid := by
          intro x hx hc
          exact hnd.1 (mem_truthyIds.mpr ⟨h0, x, hx, hc⟩)
        rw [foldStore_lookup_not_mem hnone]
        exact stepStore_lookup_self h0
      · have hrt : r ∈ t := by
          rcases List.mem_cons.mp hr with h | h
          · exact absurd ((congrArg ProductRecord.pid h).symm) hak
          · exact h
        have hi := @ih (stepStore c irc st a) hnd.2 hrt
        rwa [stepStore_lookup_ne (Or.inr fun hc => hak hc.symm)] at hi

/-! Pointwise facts about the branch logic, the metadata refresh, the
post-step entry and the sweep. -/

theorem branchEntry_oos (p : TrackedProductState) (c : Bool) :
    ((branchEntry p c).1).is_out_of_stock = c := by
  rcases p with ⟨nm, oos, pl, nt⟩
  cases c <;> cases oos <;> cases nt <;> simp [branchEntry]

theorem branchEntry_name (p : TrackedProductState) (c : Bool) :
    ((branchEntry p c).1).name = p.name := by
  rcases p with ⟨nm, oos, pl, nt⟩
  cases c <;> cases oos <;> cases nt <;> simp [branchEntry]

theorem branchEntry_permalink (p : TrackedProductState) (c : Bool) :
    ((branchEntry p c).1).permalink = p.permalink := by
  rcases p with ⟨nm, oos, pl, nt⟩
  cases c <;> cases oos <;> cases nt <;> simp [branchEntry]

theorem branchEntry_notified_true (p : TrackedProductState) :
    ((branchEntry p true).1).notified = true := by
  rcases p with ⟨nm, oos, pl, nt⟩
  cases oos <;> cases nt <;> simp [branchEntry]

theorem branchEntry_good {p : TrackedProductState} {c : Bool}
    (h : p.notified = true → p.is_out_of_stock = true) :
    ((branchEntry p c).1).notified = true →
      ((branchEntry p c).1).is_out_of_stock = true := by
  rcases p with ⟨nm, oos, pl, nt⟩
  cases c <;> cases oos <;> cases nt <;> simp_all [branchEntry]

theorem branchEntry_settled {p : TrackedProductState} {c : Bool}
    (hoos : p.is_out_of_stock = c) (hnt : c = true → p.notified = true) :
    branchEntry p c = (p, false) := by
  rcases p with ⟨nm, oos, pl, nt⟩
  cases c <;> cases oos <;> cases nt <;> simp_all [branchEntry]

theorem metaRefresh_oos (p e : TrackedProductState) (r : ProductRecord) :
    (metaRefresh p e r).is_out_of_stock = e.is_out_of_stock := by
  unfold metaRefresh
  split <;> rfl

theorem metaRefresh_notified (p e : TrackedProductState) (r : ProductRecord) :
    (metaRefresh p e r).notified = e.notified := by
  unfold metaRefresh
  split <;> rfl

theorem metaRefresh_name {p e : TrackedProductState} (r : ProductRecord)
    (h : e.name = p.name) : (metaRefresh p e r).name = r.name := by
  by_cases hc : p.name ≠ r.name ∨ p.permalink ≠ r.permalink
  · rw [metaRefresh, if_pos hc]
  · rw [metaRefresh, if_neg hc]
    push_neg at hc
    rw [h, hc.1]

theorem metaRefresh_permalink {p e : TrackedProductState} (r : ProductRecord)
    (h : e.permalink = p.permalink) :
    (metaRefresh p e r).permalink = r.permalink := by
  by_cases hc : p.name ≠ r.name ∨ p.permalink ≠ r.permalink
  · rw [metaRefresh, if_pos hc]
  · rw [metaRefresh, if_neg hc]
    push_neg at hc
    rw [h, hc.2]

theorem metaRefresh_self (p : TrackedProductState) (r : ProductRecord)
    (hn : p.name = r.name) (hp : p.permalink = r.permalink) :
    metaRefresh p p r = p := by
  rw [metaRefresh, if_neg]
  push_neg
  exact ⟨hn, hp⟩

theorem postEntry_oos (c : ProductRecord → Bool) (irc : Bool)
    (prev : Option TrackedProductState) (r : ProductRecord) :
    (postEntry c irc prev r).is_out_of_stock = c r := by
  cases prev with
  | none => rfl
  | some p => simp [postEntry, metaRefresh_oos, branchEntry_oos]

theorem postEntry_name (c : ProductRecord → Bool) (irc : Bool)
    (prev : Option TrackedProductState) (r : ProductRecord) :
    (postEntry c irc prev r).name = r.name := by
  cases prev with
  | none => rfl
  | some p => exact metaRefresh_name r (branchEntry_name p (c r))

theorem postEntry_permalink (c : ProductRecord → Bool) (irc : Bool)
    (prev : Option TrackedProductState) (r : ProductRecord) :
    (postEntry c irc prev r).permalink = r.permalink := by
  cases prev with
  | none => rfl
  | some p => exact metaRefresh_permalink r (branchEntry_permalink p (c r))

theorem postEntry_notified_of_irc (c : ProductRecord → Bool)
    (prev : Option TrackedProductState) (r : ProductRecord)
    (h : c r = true) : (postEntry c true prev r).notified = true := by
  cases prev with
  | none => simp [postEntry, h]
  | some p =>
    rw [postEntry, metaRefresh_notified, h]
    exact branchEntry_notified_true p

theorem sweepVal_oos (v : TrackedProductState) :
    (sweepVal v).is_out_of_stock = v.is_out_of_stock := by
  unfold sweepVal
  split <;> rfl

theorem sweepVal_name (v : TrackedProductState) :
    (sweepVal v).name = v.name := by
  unfold sweepVal
  split <;> rfl

theorem sweepVal_permalink (v : TrackedProductState) :
    (sweepVal v).permalink = v.permalink := by
  unfold sweepVal
  split <;> rfl

theorem sweepVal_notified_of_oos {v : TrackedProductState}
    (h : v.is_out_of_stock = true) : (sweepVal v).notified = true := by
  rcases v with ⟨nm, oos, pl, nt⟩
  cases nt <;> simp_all [sweepVal]

theorem sweepVal_good {v : TrackedProductState}
    (h : v.notified = true → v.is_out_of_stock = true) :
    (sweepVal v).notified = true → (sweepVal v).is_out_of_stock = true := by
  rcases v with ⟨nm, oos, pl, nt⟩
  cases oos <;> cases nt <;> simp_all [sweepVal]

/-! One whole cycle, unfolded. -/

theorem check_empty (c : ProductRecord → Bool) (d : Nat → Bool)
    (s : EngineState) : check_and_notify_products c d [] s = (s, []) :=
  rfl

theorem check_warm (c : ProductRecord → Bool) (d : Nat → Bool)
    (snap : List ProductRecord) (st : Store) (h : snap ≠ []) :
    check_and_notify_products c d snap ⟨st, true⟩ =
      (⟨(foldStore c true st snap).filter
          (fun x => decide (x.1 ∈ snap.map fun r => r.pid)), true⟩,
       foldLogs c d true st snap) := by
  rw [check_and_notify_products, if_neg h]
  simp [processAll_eq]

theorem check_cold0 (c : ProductRecord → Bool) (d : Nat → Bool)
    (snap : List ProductRecord) (st : Store) (h : snap ≠ []) :
    check_and_notify_products c d snap ⟨st, false⟩ =
      (⟨(sweepStore (foldStore c false st snap)).filter
          (fun x => decide (x.1 ∈ snap.map fun r => r.pid)), true⟩,
       foldLogs c d false st snap ++
         sweepLog d (foldStore c false st snap)) := by
  rw [check_and_notify_products, if_neg h]
  simp [processAll_eq]

theorem check_irc (c : ProductRecord → Bool) (d : Nat → Bool)
    (snap : List ProductRecord) (s : EngineState) (h : snap ≠ []) :
    ((check_and_notify_products c d snap s).1).initial_run_complete = true := by
  obtain ⟨st, irc⟩ := s
  cases irc
  · rw [check_cold0 _ _ _ _ h]
  · rw [check_warm _ _ _ _ h]

theorem getVal_filterMem_keep {ids : List Nat} {k : Nat} (st : Store)
    (h : k ∈ ids) :
    getVal (st.filter fun x => decide (x.1 ∈ ids)) k = getVal st k :=
  @getVal_filterKey_keep (fun j => decide (j ∈ ids)) k st (by simpa using h)

theorem mem_keys_filterMem {ids : List Nat} {k : Nat} (st : Store) :
    k ∈ keys (st.filter fun x => decide (x.1 ∈ ids)) ↔
      k ∈ keys st ∧ k ∈ ids := by
  rw [@mem_keys_filterKey (fun j => decide (j ∈ ids)) k st]
  simp

theorem nodup_keys_check (c : ProductRecord → Bool) (d : Nat → Bool)
    (snap : List ProductRecord) (s : EngineState)
    (h : (keys s.store).Nodup) :
    (keys ((check_and_notify_products c d snap s).1.store)).Nodup := by
  by_cases hs : snap = []
  · subst hs
    rw [check_empty]
    exact h
  · obtain ⟨st, irc⟩ := s
    cases irc
    · rw [check_cold0 _ _ _ _ hs]
      refine nodup_keys_filter ?_
      rw [keys_sweepStore]
      exact nodup_keys_foldStore h
    · rw [check_warm _ _ _ _ hs]
      exact nodup_keys_filter (nodup_keys_foldStore h)

theorem check_settles (c : ProductRecord → Bool) (d : Nat → Bool)
    (snap : List ProductRecord) (st : Store) (irc : Bool) (r : ProductRecord)
    (hnd : (truthyIds snap).Nodup) (hne : snap ≠ []) (hr : r ∈ snap)
    (h0 : r.pid ≠ 0) :
    ∃ e, getVal ((check_and_notify_products c d snap ⟨st, irc⟩).1.store)
        r.pid = some e ∧ Settled c r e := by
  have hkmem : r.pid ∈ snap.map fun x => x.pid :=
    List.mem_map.mpr ⟨r, hr, rfl⟩
  cases irc
  · refine ⟨sweepVal (postEntry c false (getVal st r.pid) r), ?_, ?_, ?_, ?_, ?_⟩
    · rw [check_cold0 _ _ _ _ hne]
      rw [getVal_filterMem_keep _ hkmem, getVal_sweepStore,
        foldStore_lookup_mem hnd hr h0]
      rfl
    · rw [sweepVal_oos, postEntry_oos]
    · rw [sweepVal_name, postEntry_name]
    · rw [sweepVal_permalink, postEntry_permalink]
    · intro hc
      exact sweepVal_notified_of_oos (by rw [postEntry_oos, hc])
  · refine ⟨postEntry c true (getVal st r.pid) r, ?_, ?_, ?_, ?_, ?_⟩
    · rw [check_warm _ _ _ _ hne]
      rw [getVal_filterMem_keep _ hkmem, foldStore_lookup_mem hnd hr h0]
    · rw [postEntry_oos]
    · rw [postEntry_name]
    · rw [postEntry_permalink]
    · intro hc
      exact postEntry_notified_of_irc c _ r hc

theorem settled_fold_id (c : ProductRecord → Bool) (d : Nat → Bool)
    (irc : Bool) (snap : List ProductRecord) (st : Store)
    (hks : (keys st).Nodup)
    (h : ∀ r ∈ snap, r.pid ≠ 0 → ∃ e, getVal st r.pid = some e ∧ Settled c r e) :
    foldStore c irc st snap = st ∧ foldLogs c d irc st snap = [] := by
  induction snap with
  | nil => exact ⟨rfl, rfl⟩
  | cons a t ih =>
    have hstep : stepStore c irc st a = st ∧ stepLog c d irc st a = [] := by
      by_cases ha : a.pid = 0
      · exact ⟨stepStore_zero ha, stepLog_zero ha⟩
      · obtain ⟨e, hl, hoos, hnm, hpl, hnt⟩ :=
          h a (List.mem_cons_self _ _) ha
        have hbe : branchEntry e (c a) = (e, false) :=
          branchEntry_settled hoos hnt
        constructor
        · rw [stepStore, if_neg ha, hl]
          simp only [hbe]
          rw [metaRefresh_self e a hnm hpl]
          exact updEntry_eq_self hks hl
        · rw [stepLog, if_neg ha, hl]
          simp only [hbe]
          simp
    have ht := ih fun r hr h0 => h r (List.mem_cons_of_mem _ hr) h0
    constructor
    · rw [foldStore, hstep.1, ht.1]
    · rw [foldLogs, hstep.1, hstep.2, ht.2]
      simp

theorem check_warm_general (c : ProductRecord → Bool) (d : Nat → Bool)
    (snap : List ProductRecord) (s : EngineState)
    (hirc : s.initial_run_complete = true) (hne : snap ≠ []) :
    check_and_notify_products c d snap s =
      (⟨(foldStore c true s.store snap).filter
          (fun x => decide (x.1 ∈ snap.map fun r => r.pid)), true⟩,
       foldLogs c d true s.store snap) := by
  obtain ⟨st, irc⟩ := s
  simp only at hirc
  subst hirc
  exact check_warm c d snap st hne

/-- A second cycle over the same snapshot finds every record settled and
emits nothing. -/
theorem second_cycle_log_nil (c : ProductRecord → Bool) (d : Nat → Bool)
    (snap : List ProductRecord) (st : Store) (irc : Bool) (hne : snap ≠ [])
    (hnd : (truthyIds snap).Nodup) (hks : (keys st).Nodup) :
    (check_and_notify_products c d snap
      ((check_and_notify_products c d snap ⟨st, irc⟩).1)).2 = [] := by
  have hirc : ((check_and_notify_products c d snap ⟨st, irc⟩).1).initial_run_complete = true :=
    check_irc c d snap _ hne
  have hks1 : (keys ((check_and_notify_products c d snap ⟨st, irc⟩).1).store).Nodup :=
    nodup_keys_check c d snap _ hks
  have hsettle : ∀ r ∈ snap, r.pid ≠ 0 →
      ∃ e, getVal ((check_and_notify_products c d snap ⟨st, irc⟩).1).store r.pid =
        some e ∧ Settled c r e :=
    fun r hr h0 => check_settles c d snap st irc r hnd hne hr h0
  rw [check_warm_general c d snap _ hirc hne]
  exact (settled_fold_id c d true snap _ hks1 hsettle).2

/-! Closed form of a cold-start cycle from the initial state. -/

theorem cold_fold (c : ProductRecord → Bool) (d : Nat → Bool) :
    ∀ (snap : List ProductRecord) (st : Store),
      (truthyIds snap).Nodup →
      (∀ x ∈ snap, x.pid ≠ 0 → getVal st x.pid = none) →
      foldStore c false st snap = st ++ coldStore c snap ∧
        foldLogs c d false st snap = [] := by
  intro snap
  induction snap with
  | nil =>
    intro st hnd h
    exact ⟨(List.append_nil st).symm, rfl⟩
  | cons a t ih =>
    intro st hnd h
    by_cases ha : a.pid = 0
    · rw [truthyIds_cons_zero _ ha] at hnd
      have := ih st hnd fun x hx h0 => h x (List.mem_cons_of_mem _ hx) h0
      constructor
      · rw [foldStore, stepStore_zero ha, this.1, coldStore, if_pos ha]
      · rw [foldLogs, stepStore_zero ha, stepLog_zero ha, this.2]
        simp
    · have hla : getVal st a.pid = none := h a (List.mem_cons_self _ _) ha
      have hstep : stepStore c false st a =
          st ++ [(a.pid, ⟨a.name, c a, a.permalink, false⟩)] := by
        rw [stepStore, if_neg ha, hla]
        simp
      have hlog : stepLog c d false st a = [] := by
        rw [stepLog, if_neg ha, hla]
        simp
      rw [truthyIds_cons_pos _ ha, List.nodup_cons] at hnd
      have hst' : ∀ x ∈ t, x.pid ≠ 0 →
          getVal (st ++ [(a.pid, ⟨a.name, c a, a.permalink, false⟩)]) x.pid = none := by
        intro x hx h0
        rw [getVal_append_of_none _ (h x (List.mem_cons_of_mem _ hx) h0)]
        have hax : a.pid ≠ x.pid :=
          fun hc => hnd.1 (mem_truthyIds.mpr ⟨hc ▸ h0, x, hx, hc.symm⟩)
        simp [getVal, hax]
      have := ih _ hnd.2 hst'
      constructor
      · rw [foldStore, hstep, this.1, coldStore, if_neg ha,
          List.append_assoc]
        rfl
      · rw [foldLogs, hstep, hlog, this.2]
        simp

theorem sweepLog_coldStore (c : ProductRecord → Bool) (d : Nat → Bool)
    (snap : List ProductRecord) :
    sweepLog d (coldStore c snap) = coldLog c d snap := by
  induction snap with
  | nil => rfl
  | cons a t ih =>
    by_cases ha : a.pid = 0
    · rw [coldStore, if_pos ha, coldLog, if_pos ha]
      exact ih
    · rw [coldStore, if_neg ha, coldLog, if_neg ha]
      have ih' := ih
      rw [sweepLog] at ih'
      by_cases hc : c a = true
      · rw [if_pos hc, sweepLog, List.filter_cons]
        simp [hc, ih']
      · rw [if_neg hc, sweepLog, List.filter_cons]
        simp only [Bool.not_eq_true] at hc
        simp [hc, ih']

theorem check_cold_init (c : ProductRecord → Bool) (d : Nat → Bool)
    (snap : List ProductRecord) (hne : snap ≠ [])
    (hnd : (truthyIds snap).Nodup) :
    check_and_notify_products c d snap initState =
      (⟨(sweepStore (coldStore c snap)).filter
          (fun x => decide (x.1 ∈ snap.map fun r => r.pid)), true⟩,
       coldLog c d snap) := by
  rw [initState, check_cold0 _ _ _ _ hne]
  have hcf := cold_fold c d snap [] hnd fun x hx h0 => rfl
  rw [hcf.1, hcf.2, List.nil_append, sweepLog_coldStore]
  rfl

theorem coldLog_filter_nil (c : ProductRecord → Bool) (d : Nat → Bool) :
    ∀ (snap : List ProductRecord) (k : Nat), (∀ x ∈ snap, x.pid ≠ k) →
      (coldLog c d snap).filter (fun n => decide (n.pid = k)) = [] := by
  intro snap
  induction snap with
  | nil =>
    intro k h
    rfl
  | cons a t ih =>
    intro k h
    by_cases ha : a.pid = 0
    · rw [coldLog, if_pos ha]
      exact ih k fun x hx => h x (List.mem_cons_of_mem _ hx)
    · rw [coldLog, if_neg ha]
      by_cases hc : c a = true
      · rw [if_pos hc, List.filter_cons]
        have hak : a.pid ≠ k := h a (List.mem_cons_self _ _)
        simp only [decide_eq_true_eq]
        rw [if_neg hak]
        exact ih k fun x hx => h x (List.mem_cons_of_mem _ hx)
      · rw [if_neg hc]
        exact ih k fun x hx => h x (List.mem_cons_of_mem _ hx)

theorem coldLog_filter_mem (c : ProductRecord → Bool) (d : Nat → Bool) :
    ∀ (snap : List ProductRecord) (r : ProductRecord),
      (truthyIds snap).Nodup → r ∈ snap → r.pid ≠ 0 →
      (coldLog c d snap).filter (fun n => decide (n.pid = r.pid)) =
        if c r = true then
          [⟨r.pid, r.name, r.permalink, Phase.sweep, d r.pid⟩]
        else [] := by
  intro snap
  induction snap with
  | nil =>
    intro r _ hr
    cases hr
  | cons a t ih =>
    intro r hnd hr h0
    by_cases ha : a.pid = 0
    · rw [truthyIds_cons_zero _ ha] at hnd
      have hrt : r ∈ t := by
        rcases List.mem_cons.mp hr with h | h
        · exact absurd (by rw [h]; exact ha) h0
        · exact h
      rw [coldLog, if_pos ha]
      exact ih r hnd hrt h0
    · rw [truthyIds_cons_pos _ ha, List.nodup_cons] at hnd
      by_cases hak : a.pid = r.pid
      · have hra : r = a := by
          rcases List.mem_cons.mp hr with h | h
          · exact h
          · exact absurd (mem_truthyIds.mpr ⟨ha, r, h, hak.symm⟩) hnd.1
        subst hra
        have hnone : ∀ x ∈ t, x.pid ≠ r.pid := by
          intro x hx hc
          exact hnd.1 (mem_truthyIds.mpr ⟨h0, x, hx, hc⟩)
        rw [coldLog, if_neg ha]
        by_cases hc : c r = true
        · rw [if_pos hc, if_pos hc, List.filter_cons]
          rw [coldLog_filter_nil c d t r.pid hnone]
          simp
        · rw [if_neg hc, if_neg hc]
          exact coldLog_filter_nil c d t r.pid hnone
      · have hrt : r ∈ t := by
          rcases List.mem_cons.mp hr with h | h
          · exact absurd ((congrArg ProductRecord.pid h).symm) hak
          · exact h
        rw [coldLog, if_neg ha]
        by_cases hc : c a = true
        · rw [if_pos hc, List.filter_cons]
          simp only [decide_eq_true_eq]
          rw [if_neg hak]
          exact ih r hnd.2 hrt h0
        · rw [if_neg hc]
          exact ih r hnd.2 hrt h0

/-! The multi-cycle runner, unfolded. -/

theorem runCycles_nil (c : ProductRecord → Bool) (d : Nat → Bool)
    (s : EngineState) : runCycles c d [] s = (s, []) :=
  rfl

theorem runCycles_aux (c : ProductRecord → Bool) (d : Nat → Bool) :
    ∀ (snaps : List (List ProductRecord)) (s : EngineState)
      (acc : List (List Notif)),
      snaps.foldl
        (fun a snap =>
          let r := check_and_notify_products c d snap a.1
          (r.1, a.2 ++ [r.2])) (s, acc) =
        ((runCycles c d snaps s).1, acc ++ (runCycles c d snaps s).2) := by
  intro snaps
  induction snaps with
  | nil =>
    intro s acc
    simp [runCycles]
  | cons snap t ih =>
    intro s acc
    rw [List.foldl_cons]
    show t.foldl _
        ((check_and_notify_products c d snap s).1,
         acc ++ [(check_and_notify_products c d snap s).2]) = _
    rw [ih]
    rw [show runCycles c d (snap :: t) s =
        ((runCycles c d t (check_and_notify_products c d snap s).1).1,
         [(check_and_notify_products c d snap s).2] ++
           (runCycles c d t (check_and_notify_products c d snap s).1).2) from by
      rw [runCycles, List.foldl_cons]
      exact ih (check_and_notify_products c d snap s).1 _]
    simp

theorem runCycles_cons (c : ProductRecord → Bool) (d : Nat → Bool)
    (snap : List ProductRecord) (snaps : List (List ProductRecord))
    (s : EngineState) :
    runCycles c d (snap :: snaps) s =
      ((runCycles c d snaps (check_and_notify_products c d snap s).1).1,
       (check_and_notify_products c d snap s).2 ::
         (runCycles c d snaps (check_and_notify_products c d snap s).1).2) := by
  rw [runCycles, List.foldl_cons]
  show snaps.foldl _
      ((check_and_notify_products c d snap s).1,
       [] ++ [(check_and_notify_products c d snap s).2]) = _
  rw [runCycles_aux]
  simp

/-! The notified-implies-out-of-stock invariant. -/

theorem stepStore_good {c : ProductRecord → Bool} {irc : Bool} {st : Store}
    {r : ProductRecord}
    (h : ∀ x ∈ st, x.2.notified = true → x.2.is_out_of_stock = true) :
    ∀ x ∈ stepStore c irc st r,
      x.2.notified = true → x.2.is_out_of_stock = true := by
  intro x hx
  by_cases h0 : r.pid = 0
  · rw [stepStore_zero h0] at hx
    exact h x hx
  · rw [stepStore, if_neg h0] at hx
    cases hl : getVal st r.pid with
    | none =>
      rw [hl] at hx
      rcases List.mem_append.mp hx with hx1 | hx1
      · exact h x hx1
      · have hx2 : x = (r.pid, ⟨r.name, c r, r.permalink, c r && irc⟩) := by
          simpa using hx1
        subst hx2
        intro hnt
        have h2 : (c r && irc) = true := hnt
        have h3 : c r = true := by
          cases hcr : c r
          · rw [hcr] at h2
            simp at h2
          · rfl
        exact h3
    | some prev =>
      rw [hl] at hx
      rcases List.mem_map.mp hx with ⟨y, hy, hxy⟩
      by_cases hk : y.1 = r.pid
      · rw [if_pos hk] at hxy
        subst hxy
        intro hnt
        simp only [metaRefresh_notified] at hnt
        simp only [metaRefresh_oos]
        have hprev : prev.notified = true → prev.is_out_of_stock = true :=
          h (r.pid, prev) (getVal_mem hl)
        exact branchEntry_good hprev hnt
      · rw [if_neg hk] at hxy
        subst hxy
        exact h y hy

theorem foldStore_good {c : ProductRecord → Bool} {irc : Bool}
    {snap : List ProductRecord} {st : Store}
    (h : ∀ x ∈ st, x.2.notified = true → x.2.is_out_of_stock = true) :
    ∀ x ∈ foldStore c irc st snap,
      x.2.notified = true → x.2.is_out_of_stock = true := by
  induction snap generalizing st with
  | nil => exact h
  | cons a t ih =>
    rw [foldStore]
    exact ih (stepStore_good h)

theorem sweepStore_good {st : Store}
    (h : ∀ x ∈ st, x.2.notified = true → x.2.is_out_of_stock = true) :
    ∀ x ∈ sweepStore st,
      x.2.notified = true → x.2.is_out_of_stock = true := by
  intro x hx
  rcases List.mem_map.mp hx with ⟨y, hy, rfl⟩
  exact sweepVal_good (h y hy)

theorem check_good (c : ProductRecord → Bool) (d : Nat → Bool)
    (snap : List ProductRecord) (s : EngineState)
    (h : ∀ x ∈ s.store, x.2.notified = true → x.2.is_out_of_stock = true) :
    ∀ x ∈ ((check_and_notify_products c d snap s).1).store,
      x.2.notified = true → x.2.is_out_of_stock = true := by
  by_cases hs : snap = []
  · subst hs
    rw [check_empty]
    exact h
  · obtain ⟨st, irc⟩ := s
    cases irc
    · rw [check_cold0 _ _ _ _ hs]
      intro x hx
      exact sweepStore_good (foldStore_good h) x (List.mem_filter.mp hx).1
    · rw [check_warm _ _ _ _ hs]
      intro x hx
      exact foldStore_good h x (List.mem_filter.mp hx).1

theorem runCycles_good (c : ProductRecord → Bool) (d : Nat → Bool) :
    ∀ (snaps : List (List ProductRecord)) (s : EngineState),
      (∀ x ∈ s.store, x.2.notified = true → x.2.is_out_of_stock = true) →
      ∀ x ∈ ((runCycles c d snaps s).1).store,
        x.2.notified = true → x.2.is_out_of_stock = true := by
  intro snaps
  induction snaps with
  | nil =>
    intro s h
    rw [runCycles_nil]
    exact h
  | cons snap t ih =>
    intro s h
    rw [runCycles_cons]
    exact ih _ (check_good c d snap s h)

/-! Closed forms of a cycle over a one-record snapshot. -/

theorem check_single_cold (c : ProductRecord → Bool) (d : Nat → Bool)
    (r : ProductRecord) (h0 : r.pid ≠ 0) :
    check_and_notify_products c d [r] initState =
      (⟨[(r.pid, ⟨r.name, c r, r.permalink, c r⟩)], true⟩,
       if c r = true then
         [⟨r.pid, r.name, r.permalink, Phase.sweep, d r.pid⟩]
       else []) := by
  rw [check_cold_init c d [r] (by simp) (by simp [truthyIds, h0])]
  rw [coldStore, if_neg h0, coldLog, if_neg h0]
  by_cases hc : c r = true
  · simp [hc, sweepStore, sweepVal, coldStore, coldLog]
  · simp only [Bool.not_eq_true] at hc
    simp [hc, sweepStore, sweepVal, coldStore, coldLog]

theorem check_single_warm (c : ProductRecord → Bool) (d : Nat → Bool)
    (r : ProductRecord) (e : TrackedProductState) (h0 : r.pid ≠ 0) :
    check_and_notify_products c d [r] ⟨[(r.pid, e)], true⟩ =
      (⟨[(r.pid, metaRefresh e (branchEntry e (c r)).1 r)], true⟩,
       if (branchEntry e (c r)).2 = true then
         [⟨r.pid, r.name, r.permalink, Phase.perItem, d r.pid⟩]
       else []) := by
  rw [check_warm c d [r] _ (by simp)]
  rw [foldStore, foldLogs, foldStore]
  have hget : getVal [(r.pid, e)] r.pid = some e := by
    simp [getVal]
  rw [show stepStore c true [(r.pid, e)] r =
      updEntry [(r.pid, e)] r.pid (metaRefresh e (branchEntry e (c r)).1 r) from by
    rw [stepStore, if_neg h0, hget]]
  rw [show stepLog c d true [(r.pid, e)] r =
      (if (branchEntry e (c r)).2 = true then
        [⟨r.pid, r.name, r.permalink, Phase.perItem, d r.pid⟩]
      else []) from by
    rw [stepLog, if_neg h0, hget]]
  simp [updEntry, foldLogs]

/-! The engine ignores the success value the notifier reports. -/

theorem stepLog_core (c : ProductRecord → Bool) (d d' : Nat → Bool)
    (irc : Bool) (st : Store) (r : ProductRecord) :
    (stepLog c d irc st r).map notifCore =
      (stepLog c d' irc st r).map notifCore := by
  by_cases h0 : r.pid = 0
  · rw [stepLog_zero h0, stepLog_zero h0]
  · rw [stepLog, stepLog, if_neg h0, if_neg h0]
    cases getVal st r.pid with
    | none =>
      dsimp only
      by_cases hc : (c r && irc) = true
      · rw [if_pos hc, if_pos hc]
        simp [notifCore]
      · rw [if_neg hc, if_neg hc]
    | some prev =>
      dsimp only
      by_cases hb : (branchEntry prev (c r)).2 = true
      · rw [if_pos hb, if_pos hb]
        simp [notifCore]
      · rw [if_neg hb, if_neg hb]

theorem foldLogs_core (c : ProductRecord → Bool) (d d' : Nat → Bool)
    (irc : Bool) :
    ∀ (snap : List ProductRecord) (st : Store),
      (foldLogs c d irc st snap).map notifCore =
        (foldLogs c d' irc st snap).map notifCore := by
  intro snap
  induction snap with
  | nil =>
    intro st
    rfl
  | cons a t ih =>
    intro st
    rw [foldLogs, foldLogs, List.map_append, List.map_append,
      stepLog_core c d d', ih]

theorem sweepLog_core (d d' : Nat → Bool) (st : Store) :
    (sweepLog d st).map notifCore = (sweepLog d' st).map notifCore := by
  rw [sweepLog, sweepLog, List.map_map, List.map_map]
  rfl

theorem check_deliver_independent (c : ProductRecord → Bool)
    (d d' : Nat → Bool) (snap : List ProductRecord) (s : EngineState) :
    (check_and_notify_products c d snap s).1 =
        (check_and_notify_products c d' snap s).1 ∧
      ((check_and_notify_products c d snap s).2).map notifCore =
        ((check_and_notify_products c d' snap s).2).map notifCore := by
  by_cases hs : snap = []
  · subst hs
    rw [check_empty, check_empty]
    exact ⟨rfl, rfl⟩
  · obtain ⟨st, irc⟩ := s
    cases irc
    · rw [check_cold0 _ _ _ _ hs, check_cold0 _ _ _ _ hs]
      refine ⟨rfl, ?_⟩
      rw [List.map_append, List.map_append, foldLogs_core c d d',
        sweepLog_core d d']
    · rw [check_warm _ _ _ _ hs, check_warm _ _ _ _ hs]
      exact ⟨rfl, foldLogs_core c d d' true snap st⟩

/-! Deletion of vanished identities and fresh reinsertion. -/

theorem check_deletes (c : ProductRecord → Bool) (d : Nat → Bool)
    (snap : List ProductRecord) (st : Store) (irc : Bool) (k : Nat)
    (hne : snap ≠ []) (habs : k ∉ snap.map fun x => x.pid) :
    k ∉ keys ((check_and_notify_products c d snap ⟨st, irc⟩).1.store) := by
  cases irc
  · rw [check_cold0 _ _ _ _ hne]
    intro hk
    exact habs ((mem_keys_filterMem _).mp hk).2
  · rw [check_warm _ _ _ _ hne]
    intro hk
    exact habs ((mem_keys_filterMem _).mp hk).2

theorem check_fresh (c : ProductRecord → Bool) (d : Nat → Bool)
    (snap : List ProductRecord) (s : EngineState) (r : ProductRecord)
    (hirc : s.initial_run_complete = true) (hnd : (truthyIds snap).Nodup)
    (hne : snap ≠ []) (hr : r ∈ snap) (h0 : r.pid ≠ 0)
    (habs : r.pid ∉ keys s.store) :
    getVal ((check_and_notify_products c d snap s).1.store) r.pid =
      some ⟨r.name, c r, r.permalink, c r⟩ := by
  rw [check_warm_general c d snap s hirc hne]
  have hkmem : r.pid ∈ snap.map fun x => x.pid :=
    List.mem_map.mpr ⟨r, hr, rfl⟩
  rw [getVal_filterMem_keep _ hkmem, foldStore_lookup_mem hnd hr h0,
    (getVal_eq_none_iff _ _).mpr habs]
  simp [postEntry]

/-! The store keys after a cycle are the snapshot's truthy ids. -/

theorem check_keys_iff (c : ProductRecord → Bool) (d : Nat → Bool)
    (snap : List ProductRecord) (st : Store) (irc : Bool) (k : Nat)
    (hne : snap ≠ []) (hkeys : ∀ j ∈ keys st, j ≠ 0) :
    k ∈ keys ((check_and_notify_products c d snap ⟨st, irc⟩).1.store) ↔
      k ≠ 0 ∧ k ∈ snap.map fun x => x.pid := by
  have hmain : (k ∈ keys st ∨ k ∈ truthyIds snap) ∧ (k ∈ snap.map fun x => x.pid) ↔
      k ≠ 0 ∧ k ∈ snap.map fun x => x.pid := by
    constructor
    · rintro ⟨hk1 | hk1, hk2⟩
      · exact ⟨hkeys k hk1, hk2⟩
      · exact ⟨(mem_truthyIds.mp hk1).1, hk2⟩
    · rintro ⟨h0, hmem⟩
      refine ⟨Or.inr (mem_truthyIds.mpr ⟨h0, ?_⟩), hmem⟩
      rcases List.mem_map.mp hmem with ⟨x, hx, hpx⟩
      exact ⟨x, hx, hpx⟩
  cases irc
  · rw [check_cold0 _ _ _ _ hne]
    rw [mem_keys_filterMem]
    rw [show keys (sweepStore (foldStore c false st snap)) =
        keys (foldStore c false st snap) from keys_sweepStore _]
    rw [mem_keys_foldStore]
    exact hmain
  · rw [check_warm _ _ _ _ hne]
    rw [mem_keys_filterMem, mem_keys_foldStore]
    exact hmain

/-! The reply-routing decision. -/

theorem handle_reply_cases (kw : String) (m : ReplyMsg) :
    handle_reply kw (some m) = true ↔
      (∃ o, m.reply_to = some o) ∧
        ∃ t, m.text = some t ∧ t ≠ "" ∧
          containsSeq (lowerChars kw) (lowerChars t) = true := by
  obtain ⟨ro, tx⟩ := m
  cases ro with
  | none => simp [handle_reply]
  | some o =>
    cases tx with
    | none => simp [handle_reply]
    | some t =>
      by_cases ht : t = ""
      · simp [handle_reply, ht]
      · simp [handle_reply, keyword_in, ht]

/-! The claims. -/

/-- C1: after any sequence of reconcile cycles run from the initial state —
so for every cycle and every store state the engine can actually be in —
every tracked entry with `notified = true` also has
`is_out_of_stock = true`. -/
theorem claim_notified_implies_out_of_stock (c : ProductRecord → Bool)
    (d : Nat → Bool) (snaps : List (List ProductRecord))
    (x : Nat × TrackedProductState)
    (hx : x ∈ ((runCycles c d snaps initState).1).store)
    (hnt : x.2.notified = true) : x.2.is_out_of_stock = true :=
  runCycles_good c d snaps initState
    (fun y hy => absurd hy (List.not_mem_nil y)) x hx hnt

theorem claim_notified_implies_out_of_stock_witness :
    ((1 : Nat), TrackedProductState.mk "a" true "p" true) ∈
        ((runCycles (check_product_stock_status "z") (fun _ => true)
          [[⟨1, "a", "p", false⟩]] initState).1).store ∧
      (TrackedProductState.mk "a" true "p" true).is_out_of_stock = true :=
  ⟨by decide,
   claim_notified_implies_out_of_stock (check_product_stock_status "z")
     (fun _ => true) [[⟨1, "a", "p", false⟩]]
     (1, ⟨"a", true, "p", true⟩) (by decide) rfl⟩

/-- C2 counterexample: a snapshot listing the same identity twice with
conflicting stock classifications refutes the claim as stated: running the
engine twice in a row on it from the initial state yields one notification
on the second run, not zero. -/
theorem claim_idempotence_counterexample :
    (check_and_notify_products (check_product_stock_status "z")
        (fun _ => true) [⟨1, "a", "", false⟩, ⟨1, "a", "", true⟩]
        ((check_and_notify_products (check_product_stock_status "z")
          (fun _ => true) [⟨1, "a", "", false⟩, ⟨1, "a", "", true⟩]
          initState).1)).2 =
      [⟨1, "a", "", Phase.perItem, true⟩] := by
  decide

/-- C2 (amended): for every non-empty snapshot whose truthy identities are
pairwise distinct and every store state (a dict, so with distinct keys),
running reconcile twice in a row produces zero notifications on the second
run. -/
theorem claim_idempotence_amended (c : ProductRecord → Bool)
    (d : Nat → Bool) (snap : List ProductRecord) (st : Store) (irc : Bool)
    (hne : snap ≠ []) (hnd : (truthyIds snap).Nodup)
    (hks : (keys st).Nodup) :
    (check_and_notify_products c d snap
      ((check_and_notify_products c d snap ⟨st, irc⟩).1)).2 = [] :=
  second_cycle_log_nil c d snap st irc hne hnd hks

theorem claim_idempotence_amended_witness :
    (([⟨1, "a", "p", false⟩] : List ProductRecord) ≠ [] ∧
        (truthyIds [⟨1, "a", "p", false⟩]).Nodup ∧
        (keys ([] : Store)).Nodup) ∧
      (check_and_notify_products (check_product_stock_status "z")
        (fun _ => true) [⟨1, "a", "p", false⟩]
        ((check_and_notify_products (check_product_stock_status "z")
          (fun _ => true) [⟨1, "a", "p", false⟩] ⟨[], false⟩).1)).2 = [] :=
  ⟨⟨by decide, by decide, List.nodup_nil⟩,
   claim_idempotence_amended (check_product_stock_status "z") (fun _ => true)
     [⟨1, "a", "p", false⟩] [] false (by decide) (by decide) List.nodup_nil⟩

/-- C3 counterexample: on a cold-start cycle whose snapshot lists identity 1
first in stock and then out of stock, identity 1 is out of stock in the
snapshot, yet its one notification is emitted during per-item processing,
not in the post-scan sweep — refuting the claim as stated. -/
theorem claim_cold_sweep_counterexample :
    check_product_stock_status "z" ⟨1, "a", "", false⟩ = true ∧
      (check_and_notify_products (check_product_stock_status "z")
        (fun _ => true) [⟨1, "a", "", true⟩, ⟨1, "a", "", false⟩]
        initState).2 =
      [⟨1, "a", "", Phase.perItem, true⟩] := by
  decide

/-- C3 (amended): on the first (cold-start) cycle over a non-empty snapshot
whose truthy identities are pairwise distinct, every out-of-stock record
with a truthy identity gets exactly one notification, emitted in the
post-scan sweep — never during per-item processing. -/
theorem claim_cold_sweep_amended (c : ProductRecord → Bool) (d : Nat → Bool)
    (snap : List ProductRecord) (r : ProductRecord)
    (hnd : (truthyIds snap).Nodup) (hne : snap ≠ []) (hr : r ∈ snap)
    (h0 : r.pid ≠ 0) (hc : c r = true) :
    ((check_and_notify_products c d snap initState).2).filter
        (fun n => decide (n.pid = r.pid)) =
      [⟨r.pid, r.name, r.permalink, Phase.sweep, d r.pid⟩] := by
  rw [check_cold_init c d snap hne hnd]
  have h := coldLog_filter_mem c d snap r hnd hr h0
  rw [if_pos hc] at h
  exact h

theorem claim_cold_sweep_amended_witness :
    ((truthyIds [⟨1, "a", "p", false⟩]).Nodup ∧
        check_product_stock_status "z" ⟨1, "a", "p", false⟩ = true) ∧
      ((check_and_notify_products (check_product_stock_status "z")
          (fun _ => true) [⟨1, "a", "p", false⟩] initState).2).filter
          (fun n => decide (n.pid = 1)) =
        [⟨1, "a", "p", Phase.sweep, true⟩] :=
  ⟨⟨by decide, by decide⟩,
   claim_cold_sweep_amended (check_product_stock_status "z") (fun _ => true)
     [⟨1, "a", "p", false⟩] ⟨1, "a", "p", false⟩ (by decide) (by decide)
     (by decide) (by decide) (by decide)⟩

/-- C4: a product seen in stock, then out of stock, then twice more out of
stock unchanged, is notified exactly once, during the second cycle. -/
theorem claim_transition_dedup (c : ProductRecord → Bool) (d : Nat → Bool)
    (pid : Nat) (nm pl : String) (h0 : pid ≠ 0)
    (hin : c ⟨pid, nm, pl, true⟩ = false)
    (hout : c ⟨pid, nm, pl, false⟩ = true) :
    (runCycles c d [[⟨pid, nm, pl, true⟩], [⟨pid, nm, pl, false⟩],
        [⟨pid, nm, pl, false⟩], [⟨pid, nm, pl, false⟩]] initState).2 =
      [[], [⟨pid, nm, pl, Phase.perItem, d pid⟩], [], []] := by
  have hp : (⟨pid, nm, pl, true⟩ : ProductRecord).pid ≠ 0 := h0
  have hp' : (⟨pid, nm, pl, false⟩ : ProductRecord).pid ≠ 0 := h0
  have s1 : check_and_notify_products c d [⟨pid, nm, pl, true⟩] initState =
      (⟨[(pid, ⟨nm, false, pl, false⟩)], true⟩, []) := by
    rw [check_single_cold c d _ hp, hin]
    simp
  have s2 : check_and_notify_products c d [⟨pid, nm, pl, false⟩]
      ⟨[(pid, ⟨nm, false, pl, false⟩)], true⟩ =
      (⟨[(pid, ⟨nm, true, pl, true⟩)], true⟩,
       [⟨pid, nm, pl, Phase.perItem, d pid⟩]) := by
    rw [check_single_warm c d _ _ hp', hout]
    simp [branchEntry, metaRefresh]
  have s3 : check_and_notify_products c d [⟨pid, nm, pl, false⟩]
      ⟨[(pid, ⟨nm, true, pl, true⟩)], true⟩ =
      (⟨[(pid, ⟨nm, true, pl, true⟩)], true⟩, []) := by
    rw [check_single_warm c d _ _ hp', hout]
    simp [branchEntry, metaRefresh]
  simp [runCycles_cons, runCycles_nil, s1, s2, s3]

theorem claim_transition_dedup_witness :
    ((1 : Nat) ≠ 0 ∧
        check_product_stock_status "z" ⟨1, "a", "p", true⟩ = false ∧
        check_product_stock_status "z" ⟨1, "a", "p", false⟩ = true) ∧
      (runCycles (check_product_stock_status "z") (fun _ => true)
        [[⟨1, "a", "p", true⟩], [⟨1, "a", "p", false⟩],
         [⟨1, "a", "p", false⟩], [⟨1, "a", "p", false⟩]] initState).2 =
      [[], [⟨1, "a", "p", Phase.perItem, true⟩], [], []] :=
  ⟨⟨by decide, by decide, by decide⟩,
   claim_transition_dedup (check_product_stock_status "z") (fun _ => true)
     1 "a" "p" (by decide) (by decide) (by decide)⟩

/-- C5 counterexample: for the cold-start stock sequence out-of-stock,
in-stock, out-of-stock, the two notifications occur at the end of the first
cycle (the post-scan sweep) and during the third cycle; the second cycle
emits nothing, refuting the claimed second-and-third timing. -/
theorem claim_flip_back_counterexample :
    (runCycles (check_product_stock_status "z") (fun _ => true)
      [[⟨1, "a", "p", false⟩], [⟨1, "a", "p", true⟩],
       [⟨1, "a", "p", false⟩]] initState).2 =
      [[⟨1, "a", "p", Phase.sweep, true⟩], [],
       [⟨1, "a", "p", Phase.perItem, true⟩]] := by
  decide

/-- C5 (amended): for the cold-start stock sequence out-of-stock, in-stock,
out-of-stock, exactly two notifications are sent: one in the post-scan sweep
at the end of the first cycle and one during the third cycle; none is sent
during the second cycle (the transition into stock). -/
theorem claim_flip_back_amended (c : ProductRecord → Bool) (d : Nat → Bool)
    (pid : Nat) (nm pl : String) (h0 : pid ≠ 0)
    (hin : c ⟨pid, nm, pl, true⟩ = false)
    (hout : c ⟨pid, nm, pl, false⟩ = true) :
    (runCycles c d [[⟨pid, nm, pl, false⟩], [⟨pid, nm, pl, true⟩],
        [⟨pid, nm, pl, false⟩]] initState).2 =
      [[⟨pid, nm, pl, Phase.sweep, d pid⟩], [],
       [⟨pid, nm, pl, Phase.perItem, d pid⟩]] := by
  have hp : (⟨pid, nm, pl, true⟩ : ProductRecord).pid ≠ 0 := h0
  have hp' : (⟨pid, nm, pl, false⟩ : ProductRecord).pid ≠ 0 := h0
  have s1 : check_and_notify_products c d [⟨pid, nm, pl, false⟩] initState =
      (⟨[(pid, ⟨nm, true, pl, true⟩)], true⟩,
       [⟨pid, nm, pl, Phase.sweep, d pid⟩]) := by
    rw [check_single_cold c d _ hp', hout]
    simp
  have s2 : check_and_notify_products c d [⟨pid, nm, pl, true⟩]
      ⟨[(pid, ⟨nm, true, pl, true⟩)], true⟩ =
      (⟨[(pid, ⟨nm, false, pl, false⟩)], true⟩, []) := by
    rw [check_single_warm c d _ _ hp, hin]
    simp [branchEntry, metaRefresh]
  have s3 : check_and_notify_products c d [⟨pid, nm, pl, false⟩]
      ⟨[(pid, ⟨nm, false, pl, false⟩)], true⟩ =
      (⟨[(pid, ⟨nm, true, pl, true⟩)], true⟩,
       [⟨pid, nm, pl, Phase.perItem, d pid⟩]) := by
    rw [check_single_warm c d _ _ hp', hout]
    simp [branchEntry, metaRefresh]
  simp [runCycles_cons, runCycles_nil, s1, s2, s3]

theorem claim_flip_back_amended_witness :
    ((1 : Nat) ≠ 0 ∧
        check_product_stock_status "z" ⟨1, "a", "p", true⟩ = false ∧
        check_product_stock_status "z" ⟨1, "a", "p", false⟩ = true) ∧
      (runCycles (check_product_stock_status "z") (fun _ => true)
        [[⟨1, "a", "p", false⟩], [⟨1, "a", "p", true⟩],
         [⟨1, "a", "p", false⟩]] initState).2 =
      [[⟨1, "a", "p", Phase.sweep, true⟩], [],
       [⟨1, "a", "p", Phase.perItem, true⟩]] :=
  ⟨⟨by decide, by decide, by decide⟩,
   claim_flip_back_amended (check_product_stock_status "z") (fun _ => true)
     1 "a" "p" (by decide) (by decide) (by decide)⟩

/-- C6 counterexample: with a notifier that reports failure for every
delivery, a product flipping out of stock is still marked
`notified = true` after the cycle — the engine discards the notifier's
result — refuting the claim that `notified` stays false on failure. -/
theorem claim_notify_failure_counterexample :
    (check_and_notify_products (check_product_stock_status "z")
        (fun _ => false) [⟨1, "a", "p", false⟩] ⟨[], true⟩).2 =
      [⟨1, "a", "p", Phase.perItem, false⟩] ∧
      getVal ((check_and_notify_products (check_product_stock_status "z")
        (fun _ => false) [⟨1, "a", "p", false⟩] ⟨[], true⟩).1.store) 1 =
        some ⟨"a", true, "p", true⟩ := by
  decide

/-- C6 (amended): a delivery failure does not abort the cycle, but the
engine ignores the notifier's boolean result entirely: the resulting engine
state, and the notification log up to the recorded success flags, are
identical for any two notifiers, so `notified` is set to `true` even when
delivery failed and no retry happens. -/
theorem claim_notify_failure_amended (c : ProductRecord → Bool)
    (d d' : Nat → Bool) (snap : List ProductRecord) (s : EngineState) :
    (check_and_notify_products c d snap s).1 =
        (check_and_notify_products c d' snap s).1 ∧
      ((check_and_notify_products c d snap s).2).map notifCore =
        ((check_and_notify_products c d' snap s).2).map notifCore :=
  check_deliver_independent c d d' snap s

/-- C7: a cycle over the empty snapshot returns the engine state unchanged —
store untouched, initial-scan flag untouched — and sends no notification. -/
theorem claim_empty_snapshot_no_effect (c : ProductRecord → Bool)
    (d : Nat → Bool) (s : EngineState) :
    check_and_notify_products c d [] s = (s, []) :=
  rfl

/-- C8: an identity tracked in the store but absent from a non-empty
snapshot is deleted during that cycle, and when it reappears in a later
cycle (with distinct truthy snapshot identities) it is handled by the
new-identity branch: reinserted fresh from the record, with `notified` equal
to its classification since the initial scan is complete by then, so no
cold-start suppression applies. -/
theorem claim_deletion_then_fresh (c : ProductRecord → Bool)
    (d : Nat → Bool) (st : Store) (irc : Bool)
    (snap1 snap2 : List ProductRecord) (k : Nat) (r : ProductRecord)
    (hne1 : snap1 ≠ []) (habs : k ∉ snap1.map fun x => x.pid)
    (hnd2 : (truthyIds snap2).Nodup) (hne2 : snap2 ≠ []) (hr : r ∈ snap2)
    (hpid : r.pid = k) (h0 : k ≠ 0) :
    k ∉ keys ((check_and_notify_products c d snap1 ⟨st, irc⟩).1.store) ∧
      getVal ((check_and_notify_products c d snap2
          ((check_and_notify_products c d snap1 ⟨st, irc⟩).1)).1.store) k =
        some ⟨r.name, c r, r.permalink, c r⟩ := by
  have hdel := check_deletes c d snap1 st irc k hne1 habs
  refine ⟨hdel, ?_⟩
  have hirc := check_irc c d snap1 ⟨st, irc⟩ hne1
  have hfresh := check_fresh c d snap2 _ r hirc hnd2 hne2 hr
    (by rw [hpid]; exact h0) (by rw [hpid]; exact hdel)
  rw [← hpid]
  exact hfresh

theorem claim_deletion_then_fresh_witness :
    ((5 : Nat) ∉ ([⟨2, "b", "", true⟩] : List ProductRecord).map
        (fun x => x.pid)) ∧
      (5 ∉ keys ((check_and_notify_products (check_product_stock_status "z")
          (fun _ => true) [⟨2, "b", "", true⟩]
          ⟨[(5, ⟨"x", true, "", true⟩)], false⟩).1.store) ∧
        getVal ((check_and_notify_products (check_product_stock_status "z")
            (fun _ => true) [⟨5, "c", "q", false⟩]
            ((check_and_notify_products (check_product_stock_status "z")
              (fun _ => true) [⟨2, "b", "", true⟩]
              ⟨[(5, ⟨"x", true, "", true⟩)], false⟩).1)).1.store) 5 =
          some ⟨"c", true, "q", true⟩) :=
  ⟨by decide,
   claim_deletion_then_fresh (check_product_stock_status "z") (fun _ => true)
     [(5, ⟨"x", true, "", true⟩)] false [⟨2, "b", "", true⟩]
     [⟨5, "c", "q", false⟩] 5 ⟨5, "c", "q", false⟩ (by decide) (by decide)
     (by decide) (by decide) (by decide) (by decide) (by decide)⟩

/-- C9: the inbound-reply handler routes a reply to stock-update processing
iff the message is a reply, has non-empty text, and the lowercased keyword
is a contiguous substring of the lowercased text; otherwise it is
ignored. -/
theorem claim_reply_routing (kw : String) (m : ReplyMsg) :
    handle_reply kw (some m) = true ↔
      (∃ o, m.reply_to = some o) ∧
        ∃ t, m.text = some t ∧ t ≠ "" ∧
          containsSeq (lowerChars kw) (lowerChars t) = true :=
  handle_reply_cases kw m

/-- C10: after a cycle over a non-empty snapshot, starting from any store
whose keys are truthy, the store keys are exactly the truthy identities
occurring in the snapshot. -/
theorem claim_store_keys_match_snapshot (c : ProductRecord → Bool)
    (d : Nat → Bool) (snap : List ProductRecord) (st : Store) (irc : Bool)
    (k : Nat) (hne : snap ≠ []) (hkeys : ∀ j ∈ keys st, j ≠ 0) :
    k ∈ keys ((check_and_notify_products c d snap ⟨st, irc⟩).1.store) ↔
      k ≠ 0 ∧ k ∈ snap.map fun x => x.pid :=
  check_keys_iff c d snap st irc k hne hkeys

theorem claim_store_keys_match_snapshot_witness :
    (([⟨1, "a", "p", false⟩, ⟨0, "n", "", true⟩] : List ProductRecord) ≠ [] ∧
        (∀ j ∈ keys ([(7, ⟨"x", true, "", true⟩)] : Store), j ≠ 0)) ∧
      ((1 ∈ keys ((check_and_notify_products (check_product_stock_status "z")
          (fun _ => true) [⟨1, "a", "p", false⟩, ⟨0, "n", "", true⟩]
          ⟨[(7, ⟨"x", true, "", true⟩)], true⟩).1.store) ↔
        (1 : Nat) ≠ 0 ∧
          1 ∈ ([⟨1, "a", "p", false⟩, ⟨0, "n", "", true⟩] :
            List ProductRecord).map fun x => x.pid)) :=
  ⟨⟨by decide, by decide⟩,
   claim_store_keys_match_snapshot (check_product_stock_status "z")
     (fun _ => true) [⟨1, "a", "p", false⟩, ⟨0, "n", "", true⟩]
     [(7, ⟨"x", true, "", true⟩)] true 1 (by decide) (by decide)⟩

end TgWc
